import Mathlib

/-!  Shallow embedding of the rkeyboard soundboard application (src/main.rs).

Modelling conventions:
* Rust f32 values (volume, pitch, clip bounds, delay, slice length) are
  modelled as exact fractions F32 (an integer numerator over a natural
  denominator, not kept in lowest terms); IEEE f32 values are a finite subset
  of these and the arithmetic the program performs on them (min, max, product,
  cast to an integer) is modelled exactly.  The Rust cast "as usize" / "as u64"
  (truncate toward zero, saturate at 0 for negative values) is f32AsNat.
* std::time::Instant is modelled as a natural-number timestamp in milliseconds;
  last_played.elapsed() at time now is now - last_played (Instant is monotone,
  so now is never below last_played in any real run).
* HashSet<Key> is modelled as Finset Nat (keys as naturals); HashSet::insert
  returning false corresponds to the membership test, HashSet::remove to erase.
* i16 samples are modelled as Int; a WAV file is its header metadata plus the
  stream of per-sample decode results (none = a sample that fails to decode,
  which the code maps to 0 via unwrap_or(0)).
* rodio Sink creation can fail (Sink::try_new); the listener event handler
  takes a sinkOk flag for the outcome of that call.  State mutation and the
  playback hand-off happen only when it succeeds, as in the source.
-/

namespace RKeyboard

/-- An exact fraction modelling an f32 value: num / den.  Not normalized; all
operations below are value-faithful, and no claim depends on representation. -/
structure F32 where
  num : Int
  den : Nat
deriving DecidableEq

/-- Embedding of a natural number (u32 sample rate, u16 channel count) into
the fraction model, for the "as f32" casts at lines 129-130. -/
def F32.ofNat (n : Nat) : F32 := { num := (n : Int), den := 1 }

/-- Value comparison of two fractions by cross-multiplication. -/
def F32.le (a b : F32) : Bool := a.num * (b.den : Int) ≤ b.num * (a.den : Int)

/-- f32::min (no NaN in the fraction model). -/
def F32.fmin (a b : F32) : F32 := if a.le b then a else b

/-- f32::max (no NaN in the fraction model). -/
def F32.fmax (a b : F32) : F32 := if a.le b then b else a

/-- Exact product of two fractions. -/
def F32.mul (a b : F32) : F32 := { num := a.num * b.num, den := a.den * b.den }

/-- Rust float-to-integer cast "as usize" (or "as u64"): truncation toward
zero, saturating at 0 for negative inputs.  On nonnegative fractions
truncation toward zero coincides with floor division. -/
def f32AsNat (x : F32) : ℕ := (x.num.fdiv (x.den : Int)).toNat

/-- AudioState of src/main.rs lines 19-29: the shared mutable aggregate.
chunks : Vec<Vec<i16>>, index : usize, channels : u16, sample_rate : u32,
loudness/pitch : f32, delay_ms : u64, last_played : Instant,
pressed_keys : HashSet<Key>. -/
structure AudioState where
  chunks : List (List Int)
  index : Nat
  channels : Nat
  sample_rate : Nat
  loudness : F32
  pitch : F32
  delay_ms : Nat
  last_played : Nat
  pressed_keys : Finset Nat
deriving DecidableEq

/-- The state constructed at startup, src/main.rs lines 53-63 (Instant::now()
at startup is timestamp 0). -/
def initialState : AudioState :=
  { chunks := []
    index := 0
    channels := 2
    sample_rate := 44100
    loudness := F32.ofNat 1
    pitch := F32.ofNat 1
    delay_ms := 50
    last_played := 0
    pressed_keys := ∅ }

/-- rdev events as consumed by the listener closure: KeyPress, KeyRelease, or
any other event type (the wildcard arm at line 102). -/
inductive KEvent where
  | keyPress (key : Nat)
  | keyRelease (key : Nat)
  | otherEvent
deriving DecidableEq

/-- One playback hand-off to rodio, lines 80-89: the SamplesBuffer data
(channels, sample rate, the cloned chunk) plus the volume and speed set on the
sink before it is detached. -/
structure Played where
  channels : Nat
  sample_rate : Nat
  samples : List Int
  volume : F32
  speed : F32
deriving DecidableEq

/-- The listener closure body, src/main.rs lines 70-104, for one event at time
now: returns the state after the critical section and the playback hand-off,
if any.  sinkOk is the outcome of Sink::try_new at line 85. -/
def handleEvent (now : Nat) (sinkOk : Bool) (ev : KEvent) (s : AudioState) :
    AudioState × Option Played :=
  match ev with
  | .keyPress k =>
    if k ∈ s.pressed_keys then (s, none)
    else
      let s1 := { s with pressed_keys := insert k s.pressed_keys }
      if s1.delay_ms ≤ now - s1.last_played then
        if s1.chunks.isEmpty then (s1, none)
        else
          let buffer : Played :=
            { channels := s1.channels
              sample_rate := s1.sample_rate
              samples := s1.chunks.getD s1.index []
              volume := s1.loudness
              speed := s1.pitch }
          if sinkOk then
            ({ s1 with
                last_played := now
                index := (s1.index + 1) % s1.chunks.length }, some buffer)
          else (s1, none)
      else (s1, none)
  | .keyRelease k => ({ s with pressed_keys := s.pressed_keys.erase k }, none)
  | .otherEvent => (s, none)

/-- A WAV file as seen by the load path: hound header metadata (channel count,
sample rate) and the interleaved i16 sample stream, each entry none when that
sample fails to decode (mapped to 0 by unwrap_or at line 144). -/
structure WavFile where
  channels : Nat
  sample_rate : Nat
  samples : List (Option Int)
deriving DecidableEq

/-- start_sample of line 135: (actual_start * sr * ch) as usize, with
actual_start = clip_start.min(clip_end) from line 132. -/
def startSampleOf (f : WavFile) (clip_start clip_end : F32) : ℕ :=
  f32AsNat (((clip_start.fmin clip_end).mul (F32.ofNat f.sample_rate)).mul
    (F32.ofNat f.channels))

/-- end_sample of line 136: (actual_end * sr * ch) as usize, with
actual_end = clip_start.max(clip_end) from line 133. -/
def endSampleOf (f : WavFile) (clip_start clip_end : F32) : ℕ :=
  f32AsNat (((clip_start.fmax clip_end).mul (F32.ofNat f.sample_rate)).mul
    (F32.ofNat f.channels))

/-- chunk_size of line 139: (slice_len * sr * ch) as usize. -/
def chunkSizeOf (f : WavFile) (slice_len : F32) : ℕ :=
  f32AsNat ((slice_len.mul (F32.ofNat f.sample_rate)).mul (F32.ofNat f.channels))

/-- all_samples of lines 141-145: skip start_sample, take
end_sample.saturating_sub(start_sample), map unwrap_or(0). -/
def decodedSamples (f : WavFile) (clip_start clip_end : F32) : List Int :=
  ((f.samples.drop (startSampleOf f clip_start clip_end)).take
      (endSampleOf f clip_start clip_end - startSampleOf f clip_start clip_end)).map
    (fun s => s.getD 0)

/-- Fuel-indexed worker for Rust slice::chunks: one chunk is produced per unit
of fuel, and each step consumes at least one list element, so fuel equal to
the list length (as supplied by listChunks) always suffices; the fuel-0 arm on
a nonempty list is unreachable from listChunks.  The internal max n 1 keeps
every step productive; the load path only calls this through listChunks with
the already-clamped size chunk_size.max(1), for which max n 1 = n. -/
def listChunksFuel (n : ℕ) : ℕ → List α → List (List α)
  | _, [] => []
  | 0, _ :: _ => []
  | fuel + 1, a :: l2 =>
    (a :: l2).take (max n 1) :: listChunksFuel n fuel ((a :: l2).drop (max n 1))

/-- Rust slice::chunks(n) for positive n: contiguous chunks of n elements in
order, the final chunk possibly shorter. -/
def listChunks (n : ℕ) (l : List α) : List (List α) := listChunksFuel n l.length l

/-- new_chunks of lines 149-151: all_samples.chunks(chunk_size.max(1)). -/
def newChunksOf (f : WavFile) (clip_start clip_end slice_len : F32) : List (List Int) :=
  listChunks (max (chunkSizeOf f slice_len) 1) (decodedSamples f clip_start clip_end)

/-- The on_start_loading closure, src/main.rs lines 121-163.  The file
argument is none when hound::WavReader::open fails (line 125: early return).
When the decoded selection is empty the closure returns at line 147 without
touching the state; otherwise it replaces chunks, resets index to 0 and
installs the new metadata and parameters (lines 153-160). -/
def loadAction (file : Option WavFile) (vol pitch clip_start clip_end delay slice_len : F32)
    (s : AudioState) : AudioState :=
  match file with
  | none => s
  | some f =>
    let all_samples := decodedSamples f clip_start clip_end
    if all_samples = [] then s
    else
      { s with
          chunks := newChunksOf f clip_start clip_end slice_len
          index := 0
          channels := f.channels
          sample_rate := f.sample_rate
          loudness := vol
          pitch := pitch
          delay_ms := f32AsNat delay }

/-- Playback record that the trigger path builds from state s and chunk
index i: the SamplesBuffer plus the sink volume and speed. -/
def playedAt (s : AudioState) (i : Nat) : Played :=
  { channels := s.channels
    sample_rate := s.sample_rate
    samples := s.chunks.getD i []
    volume := s.loudness
    speed := s.pitch }

/-- Run of the listener over a list of key-press events (key, timestamp), with
every Sink::try_new succeeding; collects the playback hand-offs in order. -/
def runPresses (s : AudioState) : List (Nat × Nat) → AudioState × List Played
  | [] => (s, [])
  | (k, t) :: rest =>
    let step := handleEvent t true (.keyPress k) s
    let outc := runPresses step.1 rest
    (outc.1, step.2.toList ++ outc.2)

/-- Qualifying event sequence relative to a debounce interval, the timestamp of
the last honored trigger and the currently held keys: each press uses a key
that is not held at that point and arrives at least the debounce interval
after the previous honored trigger. -/
def qualifying (delay : Nat) : Nat → Finset Nat → List (Nat × Nat) → Bool
  | _, _, [] => true
  | last, held, (k, t) :: rest =>
    !(decide (k ∈ held)) && decide (last + delay ≤ t) &&
      qualifying delay t (insert k held) rest

/-- The two kinds of operation the program ever applies to the shared
AudioState: one listener event (lines 70-104) or one load command
(lines 121-163). -/
inductive Op where
  | key (now : Nat) (sinkOk : Bool) (ev : KEvent)
  | load (file : Option WavFile) (vol pitch clip_start clip_end delay slice_len : F32)

/-- Whether an operation is the load command. -/
def Op.isLoad : Op → Bool
  | .key _ _ _ => false
  | .load _ _ _ _ _ _ _ => true

/-- Resulting state of one operation on the shared AudioState. -/
def applyOp (op : Op) (s : AudioState) : AudioState :=
  match op with
  | .key now sinkOk ev => (handleEvent now sinkOk ev s).1
  | .load file vol pitch clip_start clip_end delay slice_len =>
    loadAction file vol pitch clip_start clip_end delay slice_len s

/-- Atomic actions of the listener closure in source order, used to reason
about what happens while the MutexGuard of line 71 is alive. -/
inductive SyncAction where
  | lockAcquire
  | stateRead
  | stateWrite
  | audioEngineCall
  | lockRelease
deriving DecidableEq

/-- The KeyPress happy path of the listener closure (src/main.rs lines 70-104)
as its sequence of atomic actions: the lock() call (line 71),
pressed_keys.insert (line 76, state write), the elapsed/debounce read
(line 78), the chunks.is_empty read (line 79), the chunks[index] read for
SamplesBuffer::new (lines 80-84), then the audio-engine calls Sink::try_new,
set_volume, set_speed, append and detach (lines 85-89), the last_played and
index writes (lines 91-92), and the MutexGuard drop when the closure body
ends (line 103). -/
def triggerPathTrace : List SyncAction :=
  [.lockAcquire, .stateWrite, .stateRead, .stateRead, .stateRead,
   .audioEngineCall, .audioEngineCall, .audioEngineCall, .audioEngineCall,
   .audioEngineCall, .stateWrite, .stateWrite, .lockRelease]

/-- Whether some audio-engine call in the trace happens while at least one
lock is held; the Nat argument counts the locks currently held. -/
def audioCallUnderLock : ℕ → List SyncAction → Bool
  | _, [] => false
  | d, .lockAcquire :: r => audioCallUnderLock (d + 1) r
  | d, .lockRelease :: r => audioCallUnderLock (d - 1) r
  | d, .audioEngineCall :: r => decide (0 < d) || audioCallUnderLock d r
  | d, .stateRead :: r => audioCallUnderLock d r
  | d, .stateWrite :: r => audioCallUnderLock d r

/-- Cursor invariant of the data model: the rotation index addresses a real
chunk whenever the chunk list is non-empty. -/
def CursorInv (s : AudioState) : Prop := s.chunks ≠ [] → s.index < s.chunks.length

/-- Concrete fraction constants used to instantiate the theorems below. -/
def f0 : F32 := { num := 0, den := 1 }

/-- One quarter, an exactly representable f32 value. -/
def fQuarter : F32 := { num := 1, den := 4 }

/-- One half, an exactly representable f32 value. -/
def fHalf : F32 := { num := 1, den := 2 }

/-- The constant one. -/
def fOne : F32 := F32.ofNat 1

/-- The constant ten. -/
def f10 : F32 := F32.ofNat 10

/-- The constant twenty. -/
def f20 : F32 := F32.ofNat 20

/-- The constant fifty. -/
def f50 : F32 := F32.ofNat 50

/-- Minus one, for exercising negative slice lengths. -/
def fNeg1 : F32 := { num := -1, den := 1 }

/-- A tiny mono WAV file at 2 Hz with three decodable samples. -/
def fileA : WavFile := { channels := 1, sample_rate := 2, samples := [some 1, some 2, some 3] }

/-- A tiny mono WAV file at 2 Hz with four decodable samples. -/
def fileB : WavFile :=
  { channels := 1, sample_rate := 2, samples := [some 1, some 2, some 3, some 4] }

/-- A concrete playback state holding two loaded chunks, cursor 0, a 10 ms
debounce, and no held keys. -/
def stateB : AudioState :=
  { chunks := [[1], [2]]
    index := 0
    channels := 1
    sample_rate := 2
    loudness := fOne
    pitch := fOne
    delay_ms := 10
    last_played := 0
    pressed_keys := ∅ }

/-- stateB with key 5 currently held. -/
def stateC : AudioState := { stateB with pressed_keys := {5} }

/-- Three qualifying key presses for stateB: fresh keys, 10 ms apart. -/
def evsB : List (Nat × Nat) := [(1, 10), (2, 20), (3, 30)]


/-- Fuel in listChunksFuel is irrelevant once it is at least the list length. -/
theorem listChunksFuel_congr (n : ℕ) :
    ∀ f1 f2 (l : List α), l.length ≤ f1 → l.length ≤ f2 →
      listChunksFuel n f1 l = listChunksFuel n f2 l := by
  intro f1
  induction f1 with
  | zero =>
    intro f2 l h1 _
    have : l = [] := List.length_eq_zero.mp (Nat.le_zero.mp h1)
    subst this
    cases f2 <;> rfl
  | succ g ih =>
    intro f2 l h1 h2
    cases l with
    | nil => cases f2 <;> rfl
    | cons a l2 =>
      cases f2 with
      | zero => simp at h2
      | succ g2 =>
        simp only [listChunksFuel]
        congr 1
        apply ih
        · simp only [List.length_drop, List.length_cons] at h1 ⊢
          have := Nat.le_max_right n 1
          omega
        · simp only [List.length_drop, List.length_cons] at h2 ⊢
          have := Nat.le_max_right n 1
          omega

/-- Unfolding equation of listChunks on a nonempty list. -/
theorem listChunks_cons (n : ℕ) (a : α) (l2 : List α) :
    listChunks n (a :: l2) =
      (a :: l2).take (max n 1) :: listChunks n ((a :: l2).drop (max n 1)) := by
  unfold listChunks
  simp only [List.length_cons, listChunksFuel]
  congr 1
  apply listChunksFuel_congr
  · simp only [List.length_drop, List.length_cons]
    have := Nat.le_max_right n 1
    omega
  · exact Nat.le_refl _

/-- Concatenation of the chunks produced by listChunks restores the input list. -/
theorem listChunks_flatten (n : ℕ) (l : List α) : (listChunks n l).flatten = l := by
  generalize hk : l.length = k
  induction k using Nat.strong_induction_on generalizing l with
  | _ k ih =>
    cases l with
    | nil => rfl
    | cons a l2 =>
      rw [listChunks_cons, List.flatten_cons]
      rw [ih (((a :: l2).drop (max n 1)).length) ?_ _ rfl]
      · exact List.take_append_drop _ _
      · subst hk
        simp only [List.length_drop, List.length_cons]
        have := Nat.le_max_right n 1
        omega

/-- listChunks of a nonempty list is nonempty. -/
theorem listChunks_ne_nil (n : ℕ) (l : List α) (h : l ≠ []) : listChunks n l ≠ [] := by
  cases l with
  | nil => exact absurd rfl h
  | cons a l2 => rw [listChunks_cons]; exact List.cons_ne_nil _ _

/-- Every chunk produced by listChunks is nonempty. -/
theorem mem_listChunks_ne_nil (n : ℕ) (l : List α) :
    ∀ c ∈ listChunks n l, c ≠ [] := by
  generalize hk : l.length = k
  induction k using Nat.strong_induction_on generalizing l with
  | _ k ih =>
    cases l with
    | nil => intro c hc; simp [listChunks, listChunksFuel] at hc
    | cons a l2 =>
      rw [listChunks_cons]
      intro c hc
      rcases List.mem_cons.mp hc with h | h
      · subst h
        obtain ⟨m, hm⟩ : ∃ m, max n 1 = m + 1 := by
          have := Nat.le_max_right n 1
          exact ⟨max n 1 - 1, by omega⟩
        rw [hm, List.take_succ_cons]
        exact List.cons_ne_nil _ _
      · exact ih (((a :: l2).drop (max n 1)).length) (by subst hk; simp only [List.length_drop, List.length_cons]; have := Nat.le_max_right n 1; omega) _ rfl c h

/-- A KeyPress for a key already held is a complete no-op (the insert at
line 76 returns false and the whole trigger block is skipped). -/
theorem handleEvent_held (now : Nat) (ok : Bool) (s : AudioState) (k : Nat)
    (hk : k ∈ s.pressed_keys) :
    handleEvent now ok (.keyPress k) s = (s, none) := by
  simp [handleEvent, hk]

/-- A KeyRelease erases the key unconditionally and plays nothing. -/
theorem handleEvent_release (now : Nat) (ok : Bool) (s : AudioState) (k : Nat) :
    handleEvent now ok (.keyRelease k) s =
      ({ s with pressed_keys := s.pressed_keys.erase k }, none) := rfl

/-- A fresh KeyPress that passes the debounce gate on a state with chunks,
with Sink::try_new succeeding, plays the chunk at the cursor and advances the
cursor modulo the chunk count, records the trigger time and the held key. -/
theorem handleEvent_trigger (s : AudioState) (k t : Nat)
    (hk : k ∉ s.pressed_keys) (hd : s.last_played + s.delay_ms ≤ t)
    (hne : s.chunks ≠ []) :
    handleEvent t true (.keyPress k) s =
      ({ s with
          pressed_keys := insert k s.pressed_keys
          last_played := t
          index := (s.index + 1) % s.chunks.length }, some (playedAt s s.index)) := by
  simp only [handleEvent]
  rw [if_neg hk, if_pos (by omega), if_neg (by simpa [List.isEmpty_iff] using hne)]
  simp [playedAt]

/-- The listener never changes chunks, channels, sample rate, volume, pitch or
the debounce interval: the event handler only touches pressed_keys,
last_played and index. -/
theorem handleEvent_frame (now : Nat) (ok : Bool) (ev : KEvent) (s : AudioState) :
    (handleEvent now ok ev s).1.chunks = s.chunks ∧
    (handleEvent now ok ev s).1.channels = s.channels ∧
    (handleEvent now ok ev s).1.sample_rate = s.sample_rate ∧
    (handleEvent now ok ev s).1.loudness = s.loudness ∧
    (handleEvent now ok ev s).1.pitch = s.pitch ∧
    (handleEvent now ok ev s).1.delay_ms = s.delay_ms := by
  cases ev with
  | keyPress k =>
    simp only [handleEvent]
    repeat' split
    all_goals simp
  | keyRelease k => simp [handleEvent]
  | otherEvent => simp [handleEvent]

/-- A run of qualifying key presses with sinks available plays the chunks in
round-robin order starting at the cursor, leaves the chunk list untouched and
advances the cursor by the number of presses modulo the chunk count. -/
theorem runPresses_spec (evs : List (Nat × Nat)) :
    ∀ s : AudioState, s.chunks ≠ [] → s.index < s.chunks.length →
      qualifying s.delay_ms s.last_played s.pressed_keys evs = true →
      (runPresses s evs).2 =
        (List.range evs.length).map
          (fun i => playedAt s ((s.index + i) % s.chunks.length)) ∧
      (runPresses s evs).1.chunks = s.chunks ∧
      (runPresses s evs).1.index = (s.index + evs.length) % s.chunks.length := by
  induction evs with
  | nil =>
    intro s h1 h2 _
    exact ⟨rfl, rfl, by simp [runPresses, Nat.mod_eq_of_lt h2]⟩
  | cons e rest ih =>
    obtain ⟨k, t⟩ := e
    intro s h1 h2 hq
    simp only [qualifying, Bool.and_eq_true, Bool.not_eq_true', decide_eq_true_eq,
      decide_eq_false_iff_not] at hq
    obtain ⟨⟨hk, hd⟩, hrest⟩ := hq
    have hlen : 0 < s.chunks.length := List.length_pos.mpr h1
    have hstep := handleEvent_trigger s k t hk hd h1
    have hidx1 : (s.index + 1) % s.chunks.length < s.chunks.length := Nat.mod_lt _ hlen
    obtain ⟨ho, hc, hi⟩ :=
      ih ({ s with
              pressed_keys := insert k s.pressed_keys
              last_played := t
              index := (s.index + 1) % s.chunks.length })
        h1 hidx1 hrest
    simp only [runPresses, hstep, Option.toList_some, List.singleton_append]
    refine ⟨?_, hc, ?_⟩
    · rw [ho]
      have hplay : ∀ i : ℕ,
          playedAt { s with
              pressed_keys := insert k s.pressed_keys
              last_played := t
              index := (s.index + 1) % s.chunks.length } i = playedAt s i :=
        fun i => rfl
      simp only [hplay]
      rw [List.length_cons, List.range_succ_eq_map, List.map_cons, List.map_map]
      congr 1
      · simp [playedAt, Nat.mod_eq_of_lt h2]
      · apply List.map_congr_left
        intro i _
        simp only [Function.comp_apply, Nat.mod_add_mod]
        congr 2
        omega
    · rw [hi]
      simp only [List.length_cons, Nat.mod_add_mod]
      congr 1
      omega

/-- Reading a list cyclically from position c for one full period is its
rotation by c. -/
theorem range_map_getD_rotate (C : List α) (c : ℕ) (hc : c < C.length) (d : α) :
    (List.range C.length).map (fun i => C.getD ((c + i) % C.length) d) = C.rotate c := by
  apply List.ext_getElem
  · simp
  · intro i h1 h2
    simp only [List.getElem_map, List.getElem_range, List.getElem_rotate]
    rw [List.getD_eq_getElem _ _ (Nat.mod_lt _ (by omega))]
    congr 1
    rw [Nat.add_comm]

/-- C4: if the WAV file cannot be opened or is not a valid WAV container
(the reader open fails), or the normalized selection decodes to zero samples,
the load performs no mutation at all: the PlaybackState is unchanged in every
field. -/
theorem load_failure_no_mutation (file : Option WavFile)
    (vol pitch clip_start clip_end delay slice_len : F32) (s : AudioState)
    (h : file = none ∨ ∀ f, file = some f → decodedSamples f clip_start clip_end = []) :
    loadAction file vol pitch clip_start clip_end delay slice_len s = s := by
  cases file with
  | none => rfl
  | some f =>
    rcases h with h | h
    · exact absurd h (by simp)
    · simp only [loadAction]
      rw [if_pos (h f rfl)]

/-- Witness for C4: an unopenable file and an empty selection both leave the
initial state untouched. -/
theorem load_failure_no_mutation_witness :
    loadAction none fOne fOne f0 f10 f50 fHalf initialState = initialState ∧
    loadAction (some fileB) fOne fOne f0 fQuarter f50 fHalf initialState = initialState :=
  ⟨load_failure_no_mutation none fOne fOne f0 f10 f50 fHalf initialState (Or.inl rfl),
   load_failure_no_mutation (some fileB) fOne fOne f0 fQuarter f50 fHalf initialState
     (Or.inr (by intro f hf; cases hf; decide))⟩

/-- C7: for every slice length, nonpositive or arbitrarily small included, the
effective chunk size chunk_size.max(1) is at least one sample, and no chunk
produced by the slicing of a selection is empty. -/
theorem chunk_size_clamped_nonempty (f : WavFile) (clip_start clip_end slice_len : F32) :
    1 ≤ max (chunkSizeOf f slice_len) 1 ∧
    ∀ c ∈ newChunksOf f clip_start clip_end slice_len, c ≠ [] :=
  ⟨Nat.le_max_right _ _, mem_listChunks_ne_nil _ _⟩

/-- Witness for C7: with a negative slice length over a three-sample
selection, the produced chunk that contains sample 1 is nonempty. -/
theorem chunk_size_clamped_nonempty_witness :
    1 ≤ max (chunkSizeOf fileA fNeg1) 1 ∧ ([1] : List Int) ≠ [] :=
  ⟨(chunk_size_clamped_nonempty fileA f0 f10 fNeg1).1,
   (chunk_size_clamped_nonempty fileA f0 f10 fNeg1).2 [1] (by decide)⟩

/-- C8 counterexample: no operation other than the load command can change
volume, pitch or the debounce interval: the listener path preserves all
three, and the only other operation the program has is the load itself.  The
claimed reload-free parameter update operation therefore does not exist. -/
theorem params_update_requires_load_cex :
    ¬ ∃ (op : Op) (s : AudioState),
      op.isLoad = false ∧
      ((applyOp op s).loudness ≠ s.loudness ∨ (applyOp op s).pitch ≠ s.pitch ∨
        (applyOp op s).delay_ms ≠ s.delay_ms) := by
  rintro ⟨op, s, hop, hch⟩
  cases op with
  | key now ok ev =>
    obtain ⟨-, -, -, h4, h5, h6⟩ := handleEvent_frame now ok ev s
    simp only [applyOp] at hch
    rcases hch with h | h | h
    · exact h h4
    · exact h h5
    · exact h h6
  | load file vol pitch clip_start clip_end delay slice_len =>
    simp [Op.isLoad] at hop

/-- C8 (amended): volume, pitch and debounce can only be updated through the
load command: the listener never modifies them, and a successful load, which
does install them, also replaces the chunk list and resets the cursor to 0 (a
parameter update without a reload does not exist in this program). -/
theorem params_update_requires_load :
    (∀ (now : Nat) (ok : Bool) (ev : KEvent) (s : AudioState),
      (handleEvent now ok ev s).1.loudness = s.loudness ∧
      (handleEvent now ok ev s).1.pitch = s.pitch ∧
      (handleEvent now ok ev s).1.delay_ms = s.delay_ms) ∧
    (∀ (f : WavFile) (vol pitch clip_start clip_end delay slice_len : F32) (s : AudioState),
      decodedSamples f clip_start clip_end ≠ [] →
      (loadAction (some f) vol pitch clip_start clip_end delay slice_len s).loudness = vol ∧
      (loadAction (some f) vol pitch clip_start clip_end delay slice_len s).pitch = pitch ∧
      (loadAction (some f) vol pitch clip_start clip_end delay slice_len s).delay_ms =
        f32AsNat delay ∧
      (loadAction (some f) vol pitch clip_start clip_end delay slice_len s).index = 0 ∧
      (loadAction (some f) vol pitch clip_start clip_end delay slice_len s).chunks =
        newChunksOf f clip_start clip_end slice_len) := by
  constructor
  · intro now ok ev s
    obtain ⟨-, -, -, h4, h5, h6⟩ := handleEvent_frame now ok ev s
    exact ⟨h4, h5, h6⟩
  · intro f vol pitch clip_start clip_end delay slice_len s h
    simp only [loadAction]
    rw [if_neg h]
    exact ⟨rfl, rfl, rfl, rfl, rfl⟩

/-- Witness for C8 (amended): a key press on stateB keeps volume, pitch and
debounce, and a successful load of fileB installs the passed parameters while
resetting the cursor. -/
theorem params_update_requires_load_witness :
    ((handleEvent 100 true (.keyPress 7) stateB).1.loudness = stateB.loudness ∧
     (handleEvent 100 true (.keyPress 7) stateB).1.pitch = stateB.pitch ∧
     (handleEvent 100 true (.keyPress 7) stateB).1.delay_ms = stateB.delay_ms) ∧
    ((loadAction (some fileB) fHalf f20 f0 f10 f50 fHalf stateB).loudness = fHalf ∧
     (loadAction (some fileB) fHalf f20 f0 f10 f50 fHalf stateB).pitch = f20 ∧
     (loadAction (some fileB) fHalf f20 f0 f10 f50 fHalf stateB).delay_ms = f32AsNat f50 ∧
     (loadAction (some fileB) fHalf f20 f0 f10 f50 fHalf stateB).index = 0 ∧
     (loadAction (some fileB) fHalf f20 f0 f10 f50 fHalf stateB).chunks =
       newChunksOf fileB f0 f10 fHalf) :=
  ⟨params_update_requires_load.1 100 true (.keyPress 7) stateB,
   params_update_requires_load.2 fileB fHalf f20 f0 f10 f50 fHalf stateB (by decide)⟩

/-- C9 counterexample: in the trigger path the audio-engine calls
(Sink::try_new, set_volume, set_speed, append, detach) do happen while the
PlaybackState lock is held, contradicting the claim that the lock is released
before the audio playback call. -/
theorem lock_across_audio_cex : ¬ (audioCallUnderLock 0 triggerPathTrace = false) := by
  decide

/-- C9 (amended): the trigger path performs its audio-engine calls while
holding the PlaybackState lock, which is released only when the event handler
returns, after the state updates. -/
theorem lock_held_across_audio :
    audioCallUnderLock 0 triggerPathTrace = true ∧
    triggerPathTrace.getLast? = some SyncAction.lockRelease := by
  decide

/-- C6: the cursor invariant 0 <= index < len(chunks) (for non-empty chunks)
holds in the initial state, is preserved by every listener event and by every
load command, and a successful load resets the cursor to 0. -/
theorem cursor_invariant_preserved :
    CursorInv initialState ∧
    (∀ (now : Nat) (ok : Bool) (ev : KEvent) (s : AudioState),
      CursorInv s → CursorInv (handleEvent now ok ev s).1) ∧
    (∀ (file : Option WavFile) (vol pitch clip_start clip_end delay slice_len : F32)
      (s : AudioState), CursorInv s →
      CursorInv (loadAction file vol pitch clip_start clip_end delay slice_len s)) ∧
    (∀ (f : WavFile) (vol pitch clip_start clip_end delay slice_len : F32) (s : AudioState),
      decodedSamples f clip_start clip_end ≠ [] →
      (loadAction (some f) vol pitch clip_start clip_end delay slice_len s).index = 0) := by
  refine ⟨?_, ?_, ?_, ?_⟩
  · intro h
    exact absurd rfl h
  · intro now ok ev s hs
    cases ev with
    | keyPress k =>
      simp only [handleEvent]
      split_ifs with h1 h2 h3 h4
      · exact hs
      · exact hs
      · intro hne
        have hlen : 0 < s.chunks.length :=
          List.length_pos.mpr (by simpa [List.isEmpty_iff] using h3)
        exact Nat.mod_lt _ hlen
      · exact hs
      · exact hs
    | keyRelease k => exact hs
    | otherEvent => exact hs
  · intro file vol pitch clip_start clip_end delay slice_len s hs
    cases file with
    | none => exact hs
    | some f =>
      simp only [loadAction]
      split_ifs with h
      · exact hs
      · intro hne
        exact List.length_pos.mpr hne
  · intro f vol pitch clip_start clip_end delay slice_len s h
    simp only [loadAction]
    rw [if_neg h]

/-- Witness for C6: the invariant survives a trigger on stateB, and loading
fileB over stateB puts the cursor back at 0. -/
theorem cursor_invariant_preserved_witness :
    CursorInv (handleEvent 100 true (.keyPress 7) stateB).1 ∧
    (loadAction (some fileB) fOne fOne f0 f10 f50 fHalf stateB).index = 0 :=
  ⟨cursor_invariant_preserved.2.1 100 true (.keyPress 7) stateB (by intro h; decide),
   cursor_invariant_preserved.2.2.2 fileB fOne fOne f0 f10 f50 fHalf stateB (by decide)⟩

/-- Key k is recorded as held after any KeyPress(k), whatever branch the
trigger attempt takes. -/
theorem mem_after_press (now : Nat) (ok : Bool) (s : AudioState) (k : Nat) :
    k ∈ (handleEvent now ok (.keyPress k) s).1.pressed_keys := by
  simp only [handleEvent]
  split_ifs with h1 h2 h3 <;> simp [h1]

/-- A run of KeyPress(k) events is a global no-op while k is held. -/
theorem runPresses_held (k : Nat) (ts : List Nat) :
    ∀ s : AudioState, k ∈ s.pressed_keys →
      runPresses s (ts.map (fun u => (k, u))) = (s, []) := by
  induction ts with
  | nil => intro s _; rfl
  | cons t ts ih =>
    intro s hk
    simp only [List.map_cons, runPresses, handleEvent_held t true s k hk]
    rw [ih s hk]
    rfl

/-- C5: auto-repeat suppression.  A run of repeated KeyPress(k) events with no
intervening release equals its first press alone and hands at most one clip to
the audio engine; a KeyPress for a held key is a complete no-op; KeyRelease
removes the key unconditionally and is a no-op when the key is absent; and
after a KeyRelease the same key qualifies again (the insert branch of the next
press is taken). -/
theorem auto_repeat_suppression (s : AudioState) (k : Nat) :
    (∀ (t : Nat) (ts : List Nat),
      runPresses s ((t :: ts).map (fun u => (k, u))) =
        ((handleEvent t true (.keyPress k) s).1,
          (handleEvent t true (.keyPress k) s).2.toList) ∧
      (runPresses s ((t :: ts).map (fun u => (k, u)))).2.length ≤ 1) ∧
    (∀ (now : Nat) (ok : Bool), k ∈ s.pressed_keys →
      handleEvent now ok (.keyPress k) s = (s, none)) ∧
    (∀ (now : Nat) (ok : Bool), k ∉ s.pressed_keys →
      (handleEvent now ok (.keyPress k) s).1.pressed_keys = insert k s.pressed_keys) ∧
    (∀ (now : Nat) (ok : Bool),
      handleEvent now ok (.keyRelease k) s =
        ({ s with pressed_keys := s.pressed_keys.erase k }, none)) ∧
    (∀ (now : Nat) (ok : Bool), k ∉ s.pressed_keys →
      (handleEvent now ok (.keyRelease k) s).1 = s) ∧
    (∀ (now now2 : Nat) (ok ok2 : Bool),
      (handleEvent now2 ok2 (.keyPress k)
          (handleEvent now ok (.keyRelease k) s).1).1.pressed_keys =
        insert k (handleEvent now ok (.keyRelease k) s).1.pressed_keys) := by
  have hins : ∀ (now : Nat) (ok : Bool) (s2 : AudioState), k ∉ s2.pressed_keys →
      (handleEvent now ok (.keyPress k) s2).1.pressed_keys = insert k s2.pressed_keys := by
    intro now ok s2 hk
    simp only [handleEvent]
    split_ifs with h1 h2 h3 <;> first | exact absurd h1 hk | rfl
  refine ⟨?_, ?_, ?_, ?_, ?_, ?_⟩
  · intro t ts
    simp only [List.map_cons, runPresses]
    rw [runPresses_held k ts _ (mem_after_press t true s k)]
    simp only [List.append_nil]
    refine ⟨trivial, ?_⟩
    cases (handleEvent t true (.keyPress k) s).2 <;> simp
  · exact fun now ok hk => handleEvent_held now ok s k hk
  · exact fun now ok hk => hins now ok s hk
  · exact fun now ok => handleEvent_release now ok s k
  · intro now ok hk
    rw [handleEvent_release]
    rw [Finset.erase_eq_of_not_mem hk]
  · intro now now2 ok ok2
    exact hins now2 ok2 _ (by rw [handleEvent_release]; exact Finset.not_mem_erase k _)

/-- Witness for C5: concrete instantiations of auto-repeat suppression on
stateB (key 5 free) and stateC (key 5 held). -/
theorem auto_repeat_suppression_witness :
    (runPresses stateB ([10, 11, 12].map (fun u => (5, u))) =
        ((handleEvent 10 true (.keyPress 5) stateB).1,
          (handleEvent 10 true (.keyPress 5) stateB).2.toList) ∧
      (runPresses stateB ([10, 11, 12].map (fun u => (5, u)))).2.length ≤ 1) ∧
    handleEvent 50 true (.keyPress 5) stateC = (stateC, none) ∧
    (handleEvent 50 true (.keyPress 5) stateB).1.pressed_keys =
      insert 5 stateB.pressed_keys ∧
    handleEvent 50 true (.keyRelease 5) stateC =
      ({ stateC with pressed_keys := stateC.pressed_keys.erase 5 }, none) ∧
    (handleEvent 50 true (.keyRelease 5) stateB).1 = stateB ∧
    (handleEvent 60 true (.keyPress 5)
        (handleEvent 50 true (.keyRelease 5) stateC).1).1.pressed_keys =
      insert 5 (handleEvent 50 true (.keyRelease 5) stateC).1.pressed_keys :=
  ⟨(auto_repeat_suppression stateB 5).1 10 [11, 12],
   (auto_repeat_suppression stateC 5).2.1 50 true (by decide),
   (auto_repeat_suppression stateB 5).2.2.1 50 true (by decide),
   (auto_repeat_suppression stateC 5).2.2.2.1 50 true,
   (auto_repeat_suppression stateB 5).2.2.2.2.1 50 true (by decide),
   (auto_repeat_suppression stateC 5).2.2.2.2.2 50 60 true true⟩

/-- A fresh KeyPress that fails the debounce gate records the key but plays
nothing and leaves last_played and the cursor alone. -/
theorem handleEvent_debounced (s : AudioState) (k t : Nat)
    (hk : k ∉ s.pressed_keys) (hd : ¬ (s.delay_ms ≤ t - s.last_played)) :
    handleEvent t true (.keyPress k) s =
      ({ s with pressed_keys := insert k s.pressed_keys }, none) := by
  simp only [handleEvent]
  rw [if_neg hk, if_neg hd]

/-- C3: the debounce gate.  Two qualifying presses of distinct fresh keys,
the first honored at t1: if the second arrives with elapsed time strictly
below the debounce interval, exactly one playback happens and last_trigger
remains t1 (updated only on the honored press); if it arrives with elapsed
time at least the debounce interval, both presses produce playbacks. -/
theorem debounce_gate (s : AudioState) (k1 k2 t1 t2 : Nat)
    (hne : s.chunks ≠ []) (h1 : k1 ∉ s.pressed_keys) (h2 : k2 ∉ s.pressed_keys)
    (hkk : k1 ≠ k2) (ht1 : s.last_played + s.delay_ms ≤ t1) (ht12 : t1 ≤ t2) :
    (t2 - t1 < s.delay_ms →
      (runPresses s [(k1, t1), (k2, t2)]).2.length = 1 ∧
      (runPresses s [(k1, t1), (k2, t2)]).1.last_played = t1) ∧
    (s.delay_ms ≤ t2 - t1 →
      (runPresses s [(k1, t1), (k2, t2)]).2.length = 2) := by
  have hstep1 := handleEvent_trigger s k1 t1 h1 ht1 hne
  have hk2 : k2 ∉ insert k1 s.pressed_keys := by
    intro hmem
    rcases Finset.mem_insert.mp hmem with h | h
    · exact hkk h.symm
    · exact h2 h
  constructor
  · intro hlt
    have hstep2 := handleEvent_debounced
      { s with
          pressed_keys := insert k1 s.pressed_keys
          last_played := t1
          index := (s.index + 1) % s.chunks.length } k2 t2 hk2
      (by show ¬ (s.delay_ms ≤ t2 - t1); omega)
    simp only [runPresses, hstep1, hstep2]
    exact ⟨by simp, trivial⟩
  · intro hge
    have hstep2 := handleEvent_trigger
      { s with
          pressed_keys := insert k1 s.pressed_keys
          last_played := t1
          index := (s.index + 1) % s.chunks.length } k2 t2 hk2
      (by show t1 + s.delay_ms ≤ t2; omega) hne
    simp only [runPresses, hstep1, hstep2]
    rfl

/-- Witness for C3: on stateB (debounce 10 ms, chunks loaded), presses at
10 ms and 15 ms produce one playback with last_trigger 10; presses at 10 ms
and 20 ms produce two. -/
theorem debounce_gate_witness :
    ((runPresses stateB [(1, 10), (2, 15)]).2.length = 1 ∧
     (runPresses stateB [(1, 10), (2, 15)]).1.last_played = 10) ∧
    (runPresses stateB [(1, 10), (2, 20)]).2.length = 2 :=
  ⟨(debounce_gate stateB 1 2 10 15 (by decide) (by decide) (by decide) (by decide)
      (by decide) (by decide)).1 (by decide),
   (debounce_gate stateB 1 2 10 20 (by decide) (by decide) (by decide) (by decide)
      (by decide) (by decide)).2 (by decide)⟩

/-- C2: round-robin rotation.  On a state with N chunks and a valid cursor, a
qualifying press plays the chunk at the cursor and advances the cursor to
(cursor + 1) mod N; a run of N + 1 qualifying presses plays the N chunks
exactly once each in rotation order starting at the cursor, and then repeats
the first one. -/
theorem rotation_round_robin (s : AudioState) (evs : List (Nat × Nat))
    (hne : s.chunks ≠ []) (hidx : s.index < s.chunks.length)
    (hq : qualifying s.delay_ms s.last_played s.pressed_keys evs = true)
    (hlen : evs.length = s.chunks.length + 1) :
    (runPresses s evs).2.map Played.samples =
      s.chunks.rotate s.index ++ [s.chunks.getD s.index []] ∧
    (s.chunks.rotate s.index).Perm s.chunks ∧
    (∀ k t, k ∉ s.pressed_keys → s.last_played + s.delay_ms ≤ t →
      (handleEvent t true (.keyPress k) s).2 = some (playedAt s s.index) ∧
      (handleEvent t true (.keyPress k) s).1.index =
        (s.index + 1) % s.chunks.length) := by
  obtain ⟨ho, -, -⟩ := runPresses_spec evs s hne hidx hq
  refine ⟨?_, List.rotate_perm _ _, ?_⟩
  · rw [ho, hlen, List.map_map]
    have hfun : (Played.samples ∘ fun i => playedAt s ((s.index + i) % s.chunks.length)) =
        fun i => s.chunks.getD ((s.index + i) % s.chunks.length) [] := rfl
    rw [hfun, List.range_succ, List.map_append]
    congr 1
    · exact range_map_getD_rotate s.chunks s.index hidx []
    · simp [Nat.add_mod_right, Nat.mod_eq_of_lt hidx]
  · intro k t hk ht
    rw [handleEvent_trigger s k t hk ht hne]
    exact ⟨rfl, rfl⟩

/-- Witness for C2: three qualifying presses on stateB (two chunks, cursor 0)
play chunk 0, chunk 1, chunk 0, and a single qualifying press plays chunk 0
and moves the cursor to 1. -/
theorem rotation_round_robin_witness :
    (runPresses stateB evsB).2.map Played.samples =
      stateB.chunks.rotate stateB.index ++ [stateB.chunks.getD stateB.index []] ∧
    (stateB.chunks.rotate stateB.index).Perm stateB.chunks ∧
    ((handleEvent 100 true (.keyPress 9) stateB).2 =
        some (playedAt stateB stateB.index) ∧
     (handleEvent 100 true (.keyPress 9) stateB).1.index =
       (stateB.index + 1) % stateB.chunks.length) :=
  have h := rotation_round_robin stateB evsB (by decide) (by decide) (by decide) (by decide)
  ⟨h.1, h.2.1, h.2.2 9 100 (by decide) (by decide)⟩

/-- Length of the decoded selection: the requested span clipped to what
remains of the file after start_sample. -/
theorem decodedSamples_length (f : WavFile) (clip_start clip_end : F32) :
    (decodedSamples f clip_start clip_end).length =
      min (endSampleOf f clip_start clip_end - startSampleOf f clip_start clip_end)
        (f.samples.length - startSampleOf f clip_start clip_end) := by
  simp [decodedSamples]

/-- The decoded selection is nonempty when the sample range is nonempty and
starts inside the file. -/
theorem decodedSamples_ne_nil (f : WavFile) (clip_start clip_end : F32)
    (hse : startSampleOf f clip_start clip_end < endSampleOf f clip_start clip_end)
    (hin : startSampleOf f clip_start clip_end < f.samples.length) :
    decodedSamples f clip_start clip_end ≠ [] := by
  intro h
  have hl := congrArg List.length h
  rw [decodedSamples_length] at hl
  simp only [List.length_nil] at hl
  omega

/-- A load whose decoded selection is nonempty installs the freshly sliced
chunks. -/
theorem loadAction_success_chunks (f : WavFile)
    (vol pitch clip_start clip_end delay slice_len : F32) (s : AudioState)
    (h : decodedSamples f clip_start clip_end ≠ []) :
    (loadAction (some f) vol pitch clip_start clip_end delay slice_len s).chunks =
      newChunksOf f clip_start clip_end slice_len := by
  simp only [loadAction]
  rw [if_neg h]

/-- C1 counterexample: on a valid 4-sample mono file at 2 Hz, the range from
0 to 1/4 second has actual_end > actual_start, yet end_sample truncates to 0,
the decoded span is empty, and the load returns without producing any chunk:
the chunk list stays empty, refuting the claim that every range with
actual_end > actual_start yields a non-empty chunk list covering the span. -/
theorem slice_roundtrip_cex :
    (f0.fmin fQuarter).le (f0.fmax fQuarter) = true ∧
    f0.fmax fQuarter ≠ f0.fmin fQuarter ∧
    loadAction (some fileB) fOne fOne f0 fQuarter f50 fHalf initialState = initialState ∧
    (loadAction (some fileB) fOne fOne f0 fQuarter f50 fHalf initialState).chunks = [] := by
  decide

/-- C1 (amended): for every valid WAV file and range whose converted sample
bounds satisfy start_sample < end_sample with start_sample inside the file,
the load produces a non-empty chunk list whose concatenation, in order, is
exactly the decoded span: the samples of the decoded file from start_sample,
capped at end_sample - start_sample entries (hence truncated at the end of
the file). -/
theorem slice_roundtrip (f : WavFile)
    (vol pitch clip_start clip_end delay slice_len : F32) (s : AudioState)
    (hse : startSampleOf f clip_start clip_end < endSampleOf f clip_start clip_end)
    (hin : startSampleOf f clip_start clip_end < f.samples.length) :
    (loadAction (some f) vol pitch clip_start clip_end delay slice_len s).chunks ≠ [] ∧
    (loadAction (some f) vol pitch clip_start clip_end delay slice_len s).chunks.flatten =
      decodedSamples f clip_start clip_end ∧
    decodedSamples f clip_start clip_end =
      ((f.samples.map (fun o => o.getD 0)).drop (startSampleOf f clip_start clip_end)).take
        (endSampleOf f clip_start clip_end - startSampleOf f clip_start clip_end) := by
  have hd := decodedSamples_ne_nil f clip_start clip_end hse hin
  rw [loadAction_success_chunks f vol pitch clip_start clip_end delay slice_len s hd]
  refine ⟨listChunks_ne_nil _ _ hd, listChunks_flatten _ _, ?_⟩
  simp [decodedSamples, List.map_take, List.map_drop]

/-- Witness for C1 (amended): slicing all of fileB produces chunks whose
concatenation is the whole decoded sample list. -/
theorem slice_roundtrip_witness :
    (loadAction (some fileB) fOne fOne f0 f10 f50 fHalf initialState).chunks ≠ [] ∧
    (loadAction (some fileB) fOne fOne f0 f10 f50 fHalf initialState).chunks.flatten =
      decodedSamples fileB f0 f10 ∧
    decodedSamples fileB f0 f10 =
      ((fileB.samples.map (fun o => o.getD 0)).drop (startSampleOf fileB f0 f10)).take
        (endSampleOf fileB f0 f10 - startSampleOf fileB f0 f10) :=
  slice_roundtrip fileB fOne fOne f0 f10 f50 fHalf initialState (by decide) (by decide)

/-- C10: when start_sample is at or past the end of the file nothing is
decoded and no load occurs (the state is returned unchanged); when the range
begins inside the file with a nonempty sample span, the load installs chunks
whose concatenation is the decoded span, whose length is the requested span
silently truncated to the samples actually available. -/
theorem load_truncates_at_eof (f : WavFile)
    (vol pitch clip_start clip_end delay slice_len : F32) (s : AudioState) :
    (f.samples.length ≤ startSampleOf f clip_start clip_end →
      loadAction (some f) vol pitch clip_start clip_end delay slice_len s = s) ∧
    (startSampleOf f clip_start clip_end < f.samples.length →
      startSampleOf f clip_start clip_end < endSampleOf f clip_start clip_end →
      (loadAction (some f) vol pitch clip_start clip_end delay slice_len s).chunks =
        newChunksOf f clip_start clip_end slice_len ∧
      (loadAction (some f) vol pitch clip_start clip_end delay slice_len s).chunks.flatten =
        decodedSamples f clip_start clip_end ∧
      (decodedSamples f clip_start clip_end).length =
        min (endSampleOf f clip_start clip_end) f.samples.length -
          startSampleOf f clip_start clip_end) := by
  constructor
  · intro h
    have hnil : decodedSamples f clip_start clip_end = [] := by
      simp [decodedSamples, List.drop_eq_nil_of_le h]
    simp only [loadAction]
    rw [if_pos hnil]
  · intro hin hse
    have hd := decodedSamples_ne_nil f clip_start clip_end hse hin
    rw [loadAction_success_chunks f vol pitch clip_start clip_end delay slice_len s hd]
    refine ⟨rfl, listChunks_flatten _ _, ?_⟩
    rw [decodedSamples_length]
    omega

/-- Witness for C10: a range starting 10 s into the 2 s fileB loads nothing,
and the full range decodes exactly the four available samples even though 20
were requested. -/
theorem load_truncates_at_eof_witness :
    loadAction (some fileB) fOne fOne f10 f20 f50 fHalf initialState = initialState ∧
    (decodedSamples fileB f0 f10).length =
      min (endSampleOf fileB f0 f10) fileB.samples.length - startSampleOf fileB f0 f10 :=
  ⟨(load_truncates_at_eof fileB fOne fOne f10 f20 f50 fHalf initialState).1 (by decide),
   ((load_truncates_at_eof fileB fOne fOne f0 f10 f50 fHalf initialState).2
      (by decide) (by decide)).2.2⟩

end RKeyboard
